import Mathlib

/-!
Shallow embedding of the trubka local offset store (src/unnamed/part_000),
the event processing pipeline of main.go, and the checkpoint construction
of main.go, together with theorems settling the specification claims.

Go maps are modelled as association lists whose iteration order is the
insertion order (one of the orders a Go map range may realize; Go map
iteration order is unspecified).  Machine integers (int32 partitions,
int64 offsets) are modelled as Int: no arithmetic is performed on them,
so overflow is irrelevant.
-/

set_option autoImplicit false

namespace Trubka

universe u v

/-- Reads the value bound to a key in an association list (the Go map read
m[k]; the first binding wins, which is the only binding when keys are
unduplicated). -/
def lookupA {α : Type u} {β : Type v} [DecidableEq α] : List (α × β) → α → Option β
  | [], _ => none
  | e :: rest, k => if e.1 = k then some e.2 else lookupA rest k

/-- Writes a key in an association list (the Go map write m[k] = v):
replaces the existing binding in place, or appends a new one. -/
def setAssoc {α : Type u} {β : Type v} [DecidableEq α] : List (α × β) → α → β → List (α × β)
  | [], k, v => [(k, v)]
  | e :: rest, k, v => if e.1 = k then (k, v) :: rest else e :: setAssoc rest k v

/-- Sentinel offset sarama.OffsetNewest. -/
def OffsetNewest : Int := -1

/-- Sentinel offset sarama.OffsetOldest. -/
def OffsetOldest : Int := -2

/-- The sentinel test used by Store (part_000 line 87) and, negated, by the
filter of writeOffsetsToDisk (line 137). -/
def isSentinel (o : Int) : Bool := o == OffsetOldest || o == OffsetNewest

/-- The progress struct (part_000 lines 17-21). -/
structure Progress where
  topic : String
  partition : Int
  offset : Int
deriving DecidableEq, Repr

/-- One topic's in-memory or persisted map from partition to offset. -/
abbrev PartitionMap := List (Int × Int)

/-- The in-memory offsets field: map from topic to partition map. -/
abbrev TopicMap := List (String × PartitionMap)

/-- Errors pushed on the writeErrors channel by writeOffsetsToDisk. -/
inductive WriteError where
  | serializeFailed (topic : String)
  | writeFailed (topic : String)
deriving DecidableEq, Repr

/-- Outcome of db.Read followed by gob decoding, as observed by Query. -/
inductive ReadResult where
  | notExist
  | readErr
  | corruptData
  | value (m : PartitionMap)
deriving DecidableEq, Repr

/-- The diskv store together with an abstract failure model: which topics
fail to read (other than not-exist), hold undecodable data, fail to
gob-serialize, or fail to write.  Serialization itself is modelled as the
identity, so records hold decoded partition maps. -/
structure Disk where
  records : List (String × PartitionMap)
  readFails : String → Bool
  corrupt : String → Bool
  encodeFails : String → Bool
  writeFails : String → Bool

/-- A fresh disk with no records and no injected failures. -/
def initDisk : Disk :=
  { records := [], readFails := fun _ => false, corrupt := fun _ => false,
    encodeFails := fun _ => false, writeFails := fun _ => false }

/-- db.Read plus gob decode as used by Query (part_000 lines 101-115). -/
def Disk.read (d : Disk) (t : String) : ReadResult :=
  if d.readFails t then ReadResult.readErr
  else
    match lookupA d.records t with
    | none => ReadResult.notExist
    | some m => if d.corrupt t then ReadResult.corruptData else ReadResult.value m

/-- The localOffsetStore state: in-memory offsets map, the buffered in
channel, the disk, the errors sent on writeErrors so far, and whether the
in and writeErrors channels have been closed. -/
structure StoreState where
  offsets : TopicMap
  queue : List Progress
  disk : Disk
  errs : List WriteError
  inClosed : Bool
  errorsClosed : Bool

/-- The state produced by newLocalOffsetStore (part_000 lines 33-51). -/
def initStore : StoreState :=
  { offsets := [], queue := [], disk := initDisk, errs := [],
    inClosed := false, errorsClosed := false }

/-- Store (part_000 lines 86-96): no-op on the two sentinel offsets,
otherwise enqueues a progress update on the in channel.  The Go function
always returns a nil error. -/
def Store (st : StoreState) (topic : String) (partition offset : Int) : StoreState :=
  if offset = OffsetOldest ∨ offset = OffsetNewest then st
  else { st with queue := st.queue ++ [{ topic := topic, partition := partition, offset := offset }] }

/-- The update branch of the store loop (part_000 lines 69-73): ensure the
topic's inner map exists, then write the partition's offset. -/
def applyProgress (offsets : TopicMap) (p : Progress) : TopicMap :=
  let cur := (lookupA offsets p.topic).getD []
  setAssoc offsets p.topic (setAssoc cur p.partition p.offset)

/-- The loop consuming every buffered update on the in channel, in order. -/
def drainQueue (offsets : TopicMap) (q : List Progress) : TopicMap :=
  q.foldl applyProgress offsets

/-- The toWrite filter of writeOffsetsToDisk (part_000 lines 135-140):
keeps only non-sentinel offsets. -/
def filterSentinels (offs : PartitionMap) : PartitionMap :=
  offs.filter (fun q => !(q.2 == OffsetNewest) && !(q.2 == OffsetOldest))

/-- The body of writeOffsetsToDisk (part_000 lines 131-154), iterating the
in-memory topics in order.  When a topic's filtered map is empty the Go
code executes return, ending the whole flush, not continue; this is kept
faithfully.  On a serialization failure the error is pushed and the write
of the buffer's bytes still takes place (the Go code falls through to
db.Write); the written value is abstracted as the filtered map. -/
def flushTopics : TopicMap → Disk → List WriteError → Disk × List WriteError
  | [], disk, errs => (disk, errs)
  | (topic, offs) :: rest, disk, errs =>
    let toWrite := filterSentinels offs
    if toWrite = [] then
      (disk, errs)
    else
      let errs1 := if disk.encodeFails topic then errs ++ [WriteError.serializeFailed topic] else errs
      if disk.writeFails topic then
        flushTopics rest disk (errs1 ++ [WriteError.writeFailed topic])
      else
        flushTopics rest { disk with records := setAssoc disk.records topic toWrite } errs1

/-- writeOffsetsToDisk (part_000 lines 131-154). -/
def writeOffsetsToDisk (offsets : TopicMap) (disk : Disk) : Disk × List WriteError :=
  flushTopics offsets disk []

/-- Query (part_000 lines 99-118): read the topic's record from disk; a
missing record yields an empty map, seeds the cache and is not an error;
other read errors and decode failures are returned synchronously. -/
inductive QueryError where
  | readFailed (topic : String)
  | deserializeFailed (topic : String)
deriving DecidableEq, Repr

/-- Query (part_000 lines 99-118). -/
def Query (st : StoreState) (topic : String) : Except QueryError PartitionMap × StoreState :=
  match st.disk.read topic with
  | ReadResult.readErr => (Except.error (QueryError.readFailed topic), st)
  | ReadResult.notExist =>
      (Except.ok [], { st with offsets := setAssoc st.offsets topic [] })
  | ReadResult.corruptData => (Except.error (QueryError.deserializeFailed topic), st)
  | ReadResult.value m => (Except.ok m, { st with offsets := setAssoc st.offsets topic m })

/-- The body of close on a non-nil store with a non-nil db (part_000 lines
124-128 together with the loop's shutdown branch, lines 62-68): closing the
in channel makes the loop drain every buffered update, run one final flush,
and return; then the writeErrors channel is closed. -/
def closeState (st : StoreState) : StoreState :=
  let offsets := drainQueue st.offsets st.queue
  let fl := writeOffsetsToDisk offsets st.disk
  { offsets := offsets, queue := [], disk := fl.1, errs := st.errs ++ fl.2,
    inClosed := true, errorsClosed := true }

/-- A localOffsetStore object as seen through a pointer: the pointer may be
nil (modelled by Option) and the db field may be nil. -/
structure StoreObj where
  dbNil : Bool
  state : StoreState

/-- close (part_000 lines 120-129): the guard of lines 121-123 returns
immediately when the receiver or its db field is nil; otherwise the body
closeState runs. -/
def closeGuarded : Option StoreObj → Option StoreObj
  | none => none
  | some obj => if obj.dbNil then some obj else some { obj with state := closeState obj.state }

/-- An externally observable action on the running store: a Store call that
the loop has consumed, or a ticker-triggered flush. -/
inductive Op where
  | store (topic : String) (partition offset : Int)
  | tick
deriving DecidableEq, Repr

/-- The loop consuming everything currently buffered on the in channel. -/
def consumeAll (st : StoreState) : StoreState :=
  { st with offsets := drainQueue st.offsets st.queue, queue := [] }

/-- One observable step of the running store: a consumed Store call, or a
flush triggered by the 3-second ticker (part_000 lines 58-75). -/
def stepOp (st : StoreState) : Op → StoreState
  | Op.store t p o => consumeAll (Store st t p o)
  | Op.tick =>
      let fl := writeOffsetsToDisk st.offsets st.disk
      { st with disk := fl.1, errs := st.errs ++ fl.2 }

/-- Runs a sequence of observable store operations. -/
def runOps (st : StoreState) (ops : List Op) : StoreState := ops.foldl stepOp st

/-- A Store call given as a (topic, partition, offset) triple. -/
def storeOp (c : String × Int × Int) : Op := Op.store c.1 c.2.1 c.2.2

/-- The offsets-level effect of a consumed Store call. -/
def runStoresMem (offsets : TopicMap) (calls : List (String × Int × Int)) : TopicMap :=
  calls.foldl
    (fun acc c =>
      if isSentinel c.2.2 then acc
      else applyProgress acc { topic := c.1, partition := c.2.1, offset := c.2.2 })
    offsets

/-- Observable of the claims: the last non-sentinel offset stored for a
given topic and partition by a sequence of Store calls (later calls win). -/
def lastStoredOffset : List (String × Int × Int) → String → Int → Option Int
  | [], _, _ => none
  | c :: rest, t, p =>
    match lastStoredOffset rest t p with
    | some o => some o
    | none =>
        if c.1 = t ∧ c.2.1 = p ∧ isSentinel c.2.2 = false then some c.2.2 else none

/-- Reads the in-memory offset recorded for a topic and partition. -/
def memGet (offsets : TopicMap) (t : String) (p : Int) : Option Int :=
  match lookupA offsets t with
  | none => none
  | some m => lookupA m p

/-- Well-formedness of the in-memory map reached through Store calls only:
keys are unduplicated and each topic's map is nonempty and sentinel-free. -/
def goodOffsets (offsets : TopicMap) : Prop :=
  (offsets.map Prod.fst).Nodup ∧
  (∀ e ∈ offsets, e.2 ≠ []) ∧
  (∀ e ∈ offsets, ∀ q ∈ e.2, isSentinel q.2 = false)

/-- Sentinel-freeness of every record persisted on a disk. -/
def diskSentinelFree (d : Disk) : Prop :=
  ∀ t m, lookupA d.records t = some m → ∀ q ∈ m, isSentinel q.2 = false

/-- A consumed kafka.Event as seen by the pipeline.  The protobuf payload
and decoded messages are abstracted as strings. -/
structure PEvent where
  topic : String
  partition : Int
  offset : Int
  value : String
  timestamp : Nat
deriving DecidableEq, Repr

/-- The codec collaborators used by process (main.go lines 267-294):
loader.Get, proto.Unmarshal and marshaller.Marshal, each fallible. -/
structure ProcessEnv where
  get : String → Except String String
  unmarshal : String → String → Except String String
  marshal : String → Nat → Except String String

/-- process (main.go lines 267-294): resolve the message type, unmarshal
the event value, marshal the output, then apply the optional search filter
with reverse semantics; a filtered-out event yields ok with a nil output.
The compiled regular expression is abstracted as a match predicate on the
marshalled output. -/
def process (env : ProcessEnv) (messageType : String) (e : PEvent)
    (search : Option (String → Bool)) (reverse : Bool) : Except String (Option String) :=
  match env.get messageType with
  | Except.error err => Except.error err
  | Except.ok msg =>
    match env.unmarshal msg e.value with
    | Except.error err => Except.error err
    | Except.ok msg2 =>
      match env.marshal msg2 e.timestamp with
      | Except.error err => Except.error err
      | Except.ok output =>
        match search with
        | none => Except.ok (some output)
        | some fMatch =>
            if fMatch output = reverse then Except.ok none else Except.ok (some output)

/-- The fixed data of the pipeline goroutine (main.go lines 142-146): the
codec environment, the topic-to-message-type map tm, the compiled search
expression and the reversed flag. -/
structure PipeEnv where
  procEnv : ProcessEnv
  tm : String → String
  search : Option (String → Bool)
  reversed : Bool

/-- One delivery observed by the pipeline's select (main.go lines 147-176):
the cancellation context firing, an event, or the events channel closing. -/
inductive PipeInput where
  | cancel
  | event (e : PEvent)
  | closed

/-- The pipeline goroutine's state: the cancelled flag, whether the loop
has returned, how many times stopConsumer was invoked, and the observable
WriteEvent, StoreOffset and failure-log calls made so far. -/
structure PipeState where
  cancelled : Bool
  terminated : Bool
  stopCalls : Nat
  outputs : List (String × Option String)
  commits : List PEvent
  logs : List (Int × Int × String)

/-- The pipeline goroutine's initial state (main.go lines 142-146). -/
def initPipe : PipeState :=
  { cancelled := false, terminated := false, stopCalls := 0,
    outputs := [], commits := [], logs := [] }

/-- One iteration of the pipeline loop (main.go lines 147-176).  The
ctx.Done branch calls stopConsumer and sets cancelled at most once; a
closed events channel returns from the loop; an event received after
cancellation is drained without processing; otherwise process runs and on
success WriteEvent and StoreOffset are called, while on failure the error
is logged with the event's offset, partition and topic. -/
def pipeStep (env : PipeEnv) (st : PipeState) (i : PipeInput) : PipeState :=
  if st.terminated then st
  else
    match i with
    | PipeInput.cancel =>
        if st.cancelled then st
        else { st with cancelled := true, stopCalls := st.stopCalls + 1 }
    | PipeInput.closed => { st with terminated := true }
    | PipeInput.event e =>
        if st.cancelled then st
        else
          match process env.procEnv (env.tm e.topic) e env.search env.reversed with
          | Except.ok output =>
              { st with outputs := st.outputs ++ [(e.topic, output)],
                        commits := st.commits ++ [e] }
          | Except.error _ =>
              { st with logs := st.logs ++ [(e.offset, e.partition, e.topic)] }

/-- Runs the pipeline loop over a sequence of deliveries. -/
def pipeRun (env : PipeEnv) (st : PipeState) (is : List PipeInput) : PipeState :=
  is.foldl (pipeStep env) st

/-- Modelled from the spec: the kafka.Checkpoint data model of section 3.
The kafka package's Checkpoint type and its NewCheckpoint, SetOffset and
SetTimeOffset constructors are not among the provided sources; only their
caller getCheckpoint (main.go lines 249-258) is.  Spec: rewindToOldest
flag plus optional explicit offset and optional explicit timestamp. -/
structure Checkpoint where
  rewindToOldest : Bool
  explicitOffset : Option Int
  explicitTimestamp : Option Nat
deriving DecidableEq, Repr

/-- Modelled from the spec: kafka.NewCheckpoint constructs a Checkpoint
from the rewind intent with neither explicit offset nor timestamp set. -/
def NewCheckpoint (rewind : Bool) : Checkpoint :=
  { rewindToOldest := rewind, explicitOffset := none, explicitTimestamp := none }

/-- Modelled from the spec: SetOffset records the explicit offset (spec
4.1: an explicit offset wins; normalization to broker bounds is the broker
client's responsibility and not modelled). -/
def Checkpoint.SetOffset (cp : Checkpoint) (o : Int) : Checkpoint :=
  { cp with explicitOffset := some o }

/-- Modelled from the spec: SetTimeOffset records the explicit timestamp. -/
def Checkpoint.SetTimeOffset (cp : Checkpoint) (t : Nat) : Checkpoint :=
  { cp with explicitTimestamp := some t }

/-- A core.TimeFlag as read by getCheckpoint: whether it was set, and its
value. -/
structure TimeFlag where
  flagSet : Bool
  value : Nat
deriving DecidableEq, Repr

/-- A core.Int64Flag as read by getCheckpoint. -/
structure Int64Flag where
  flagSet : Bool
  value : Int
deriving DecidableEq, Repr

/-- getCheckpoint (main.go lines 249-258): build the checkpoint from the
rewind flag, then the switch applies the offset checkpoint when set, else
the time checkpoint when set. -/
def getCheckpoint (rewind : Bool) (timeCheckpoint : TimeFlag) (offsetCheckpoint : Int64Flag) :
    Checkpoint :=
  let cp := NewCheckpoint rewind
  if offsetCheckpoint.flagSet then cp.SetOffset offsetCheckpoint.value
  else if timeCheckpoint.flagSet then cp.SetTimeOffset timeCheckpoint.value
  else cp

/-- Validity of the pipeline's stop bookkeeping: stopConsumer has run
exactly once after cancellation and never before. -/
def stopInvariant (st : PipeState) : Prop :=
  st.stopCalls = if st.cancelled then 1 else 0

/-- A concrete codec environment whose three stages always succeed. -/
def procEnvA : ProcessEnv :=
  { get := fun s => Except.ok s,
    unmarshal := fun m v => Except.ok (m ++ v),
    marshal := fun m _ => Except.ok m }

/-- A concrete codec environment modelling the spec example: the event
body decodes to itself and the search predicate stands for the pattern. -/
def procEnvC : ProcessEnv :=
  { get := fun _ => Except.ok "",
    unmarshal := fun _ v => Except.ok v,
    marshal := fun m _ => Except.ok m }

/-- A concrete codec environment whose schema resolution fails. -/
def procEnvFail : ProcessEnv :=
  { get := fun _ => Except.error "unknown message type",
    unmarshal := fun m _ => Except.ok m,
    marshal := fun m _ => Except.ok m }

/-- A concrete pipeline environment whose filter drops every event. -/
def envDropAll : PipeEnv :=
  { procEnv := procEnvA, tm := fun _ => "T",
    search := some (fun o => o == "never-matches"), reversed := false }

/-- A concrete pipeline environment with no filter. -/
def envPlain : PipeEnv :=
  { procEnv := procEnvA, tm := fun _ => "T", search := none, reversed := false }

/-- A concrete event. -/
def eventA : PEvent :=
  { topic := "orders", partition := 0, offset := 42, value := "body", timestamp := 7 }

/-- A pipeline state that has observed the cancellation signal and not yet
terminated. -/
def stCancelled : PipeState :=
  { cancelled := true, terminated := false, stopCalls := 1,
    outputs := [], commits := [], logs := [] }

/-- The event of the spec's filter example: body "status=ok". -/
def eventC : PEvent :=
  { topic := "t", partition := 0, offset := 0, value := "status=ok", timestamp := 0 }

/-- The match predicate of the spec's filter example: the pattern "ok"
matches the body "status=ok". -/
def matchOK : String → Bool := fun s => s == "status=ok"

section AssocLemmas

variable {α : Type u} {β : Type v} [DecidableEq α]

theorem lookupA_setAssoc_self (m : List (α × β)) (k : α) (v : β) :
    lookupA (setAssoc m k v) k = some v := by
  induction m with
  | nil => simp [setAssoc, lookupA]
  | cons e rest ih =>
      by_cases h : e.1 = k
      · simp [setAssoc, h, lookupA]
      · simp [setAssoc, h, lookupA, ih]

theorem lookupA_setAssoc_ne (m : List (α × β)) (k k' : α) (v : β) (h : k' ≠ k) :
    lookupA (setAssoc m k v) k' = lookupA m k' := by
  induction m with
  | nil => simp [setAssoc, lookupA, Ne.symm h]
  | cons e rest ih =>
      by_cases he : e.1 = k
      · subst he
        simp [setAssoc, lookupA, Ne.symm h]
      · simp [setAssoc, he, lookupA, ih]

theorem setAssoc_ne_nil (m : List (α × β)) (k : α) (v : β) : setAssoc m k v ≠ [] := by
  cases m with
  | nil => simp [setAssoc]
  | cons e rest => by_cases h : e.1 = k <;> simp [setAssoc, h]

theorem mem_setAssoc {m : List (α × β)} {k : α} {v : β} {e : α × β}
    (h : e ∈ setAssoc m k v) : e ∈ m ∨ e = (k, v) := by
  induction m with
  | nil =>
      simp [setAssoc] at h
      exact Or.inr h
  | cons f rest ih =>
      by_cases hf : f.1 = k
      · simp only [setAssoc, if_pos hf, List.mem_cons] at h
        rcases h with h | h
        · exact Or.inr h
        · exact Or.inl (List.mem_cons_of_mem _ h)
      · simp only [setAssoc, if_neg hf, List.mem_cons] at h
        rcases h with h | h
        · exact Or.inl (h ▸ List.mem_cons_self _ _)
        · rcases ih h with h1 | h1
          · exact Or.inl (List.mem_cons_of_mem _ h1)
          · exact Or.inr h1

theorem mem_keys_setAssoc {m : List (α × β)} {k a : α} {v : β}
    (h : a ∈ (setAssoc m k v).map Prod.fst) : a ∈ m.map Prod.fst ∨ a = k := by
  rcases List.mem_map.mp h with ⟨e, he, hfst⟩
  rcases mem_setAssoc he with h1 | h1
  · exact Or.inl (hfst ▸ List.mem_map_of_mem _ h1)
  · subst h1
    exact Or.inr hfst.symm

theorem nodup_keys_setAssoc {m : List (α × β)} (k : α) (v : β)
    (h : (m.map Prod.fst).Nodup) : ((setAssoc m k v).map Prod.fst).Nodup := by
  induction m with
  | nil => simp [setAssoc]
  | cons e rest ih =>
      simp only [List.map_cons, List.nodup_cons] at h
      by_cases he : e.1 = k
      · simp only [setAssoc, if_pos he, List.map_cons, List.nodup_cons]
        exact ⟨he ▸ h.1, h.2⟩
      · simp only [setAssoc, if_neg he, List.map_cons, List.nodup_cons]
        refine ⟨?_, ih h.2⟩
        intro hmem
        rcases mem_keys_setAssoc hmem with h1 | h1
        · exact h.1 h1
        · exact he h1

theorem lookupA_eq_none {m : List (α × β)} {k : α}
    (h : k ∉ m.map Prod.fst) : lookupA m k = none := by
  induction m with
  | nil => rfl
  | cons e rest ih =>
      simp only [List.map_cons, List.mem_cons] at h
      push_neg at h
      simp [lookupA, Ne.symm h.1, ih h.2]

theorem mem_of_lookupA {m : List (α × β)} {k : α} {v : β}
    (h : lookupA m k = some v) : (k, v) ∈ m := by
  induction m with
  | nil => simp [lookupA] at h
  | cons e rest ih =>
      by_cases he : e.1 = k
      · simp only [lookupA, if_pos he, Option.some.injEq] at h
        subst he; subst h
        exact List.mem_cons_self _ _
      · simp only [lookupA, if_neg he] at h
        exact List.mem_cons_of_mem _ (ih h)

end AssocLemmas

theorem isSentinel_iff (o : Int) :
    isSentinel o = true ↔ o = OffsetOldest ∨ o = OffsetNewest := by
  simp [isSentinel]

theorem memGet_applyProgress (offsets : TopicMap) (pr : Progress) (t : String) (p : Int) :
    memGet (applyProgress offsets pr) t p =
      if pr.topic = t ∧ pr.partition = p then some pr.offset
      else memGet offsets t p := by
  unfold applyProgress memGet
  by_cases ht : pr.topic = t
  · subst ht
    rw [lookupA_setAssoc_self]
    show lookupA (setAssoc ((lookupA offsets pr.topic).getD []) pr.partition pr.offset) p = _
    by_cases hp : pr.partition = p
    · subst hp
      rw [lookupA_setAssoc_self]
      simp
    · rw [lookupA_setAssoc_ne _ _ _ _ (Ne.symm hp)]
      cases hc : lookupA offsets pr.topic with
      | none => simp [hp, hc, lookupA]
      | some m0 => simp [hp, hc]
  · rw [lookupA_setAssoc_ne _ _ _ _ (Ne.symm ht)]
    simp [ht]

theorem goodOffsets_applyProgress {offsets : TopicMap} {pr : Progress}
    (h : goodOffsets offsets) (hp : isSentinel pr.offset = false) :
    goodOffsets (applyProgress offsets pr) := by
  obtain ⟨h1, h2, h3⟩ := h
  unfold applyProgress
  refine ⟨nodup_keys_setAssoc _ _ h1, ?_, ?_⟩
  · intro e he
    rcases mem_setAssoc he with h4 | h4
    · exact h2 e h4
    · rw [h4]
      exact setAssoc_ne_nil _ _ _
  · intro e he q hq
    rcases mem_setAssoc he with h4 | h4
    · exact h3 e h4 q hq
    · rw [h4] at hq
      rcases mem_setAssoc hq with h6 | h6
      · cases hc : lookupA offsets pr.topic with
        | none => rw [hc] at h6; simp at h6
        | some m0 =>
            rw [hc] at h6
            simp only [Option.getD_some] at h6
            exact h3 _ (mem_of_lookupA hc) q h6
      · rw [h6]
        exact hp

theorem runStoresMem_cons (offsets : TopicMap) (c : String × Int × Int)
    (rest : List (String × Int × Int)) :
    runStoresMem offsets (c :: rest) =
      runStoresMem
        (if isSentinel c.2.2 then offsets
         else applyProgress offsets { topic := c.1, partition := c.2.1, offset := c.2.2 })
        rest := by
  simp [runStoresMem]

theorem goodOffsets_runStoresMem (calls : List (String × Int × Int)) :
    ∀ offsets : TopicMap, goodOffsets offsets → goodOffsets (runStoresMem offsets calls) := by
  induction calls with
  | nil => intro o h; simpa [runStoresMem] using h
  | cons c rest ih =>
      intro o h
      rw [runStoresMem_cons]
      by_cases hs : isSentinel c.2.2
      · simpa [hs] using ih _ h
      · rw [if_neg hs]
        exact ih _ (goodOffsets_applyProgress h (by simpa using hs))

theorem memGet_runStoresMem (calls : List (String × Int × Int)) :
    ∀ (offsets : TopicMap) (t : String) (p : Int),
      memGet (runStoresMem offsets calls) t p =
        match lastStoredOffset calls t p with
        | some o => some o
        | none => memGet offsets t p := by
  induction calls with
  | nil => intro offsets t p; simp [runStoresMem, lastStoredOffset]
  | cons c rest ih =>
      intro offsets t p
      rw [runStoresMem_cons, ih]
      cases hr : lastStoredOffset rest t p with
      | some o => simp [lastStoredOffset, hr]
      | none =>
          simp only [lastStoredOffset, hr]
          by_cases hs : isSentinel c.2.2
          · rw [if_pos hs]
            have : ¬(c.1 = t ∧ c.2.1 = p ∧ isSentinel c.2.2 = false) := by
              rintro ⟨-, -, h3⟩
              rw [hs] at h3
              simp at h3
            rw [if_neg this]
          · rw [if_neg hs, memGet_applyProgress]
            by_cases hc : c.1 = t ∧ c.2.1 = p
            · rw [if_pos hc, if_pos ⟨hc.1, hc.2, by simpa using hs⟩]
            · rw [if_neg hc, if_neg (by rintro ⟨ha, hb, -⟩; exact hc ⟨ha, hb⟩)]

theorem filterSentinels_eq_self {m : PartitionMap}
    (h : ∀ q ∈ m, isSentinel q.2 = false) : filterSentinels m = m := by
  induction m with
  | nil => rfl
  | cons q rest ih =>
      have hq := h q (List.mem_cons_self _ _)
      have hpred : (!(q.2 == OffsetNewest) && !(q.2 == OffsetOldest)) = true := by
        simp only [isSentinel, Bool.or_eq_false_iff] at hq
        simp [hq.1, hq.2]
      simp only [filterSentinels] at *
      rw [List.filter_cons, if_pos hpred, ih (fun r hr => h r (List.mem_cons_of_mem _ hr))]

theorem mem_filterSentinels {m : PartitionMap} {q : Int × Int}
    (h : q ∈ filterSentinels m) : isSentinel q.2 = false := by
  have hp := (List.mem_filter.mp h).2
  simp only [Bool.and_eq_true, Bool.not_eq_true'] at hp
  simp [isSentinel, hp.1, hp.2]

theorem flushTopics_readFails (offsets : TopicMap) :
    ∀ (disk : Disk) (errs : List WriteError),
      (flushTopics offsets disk errs).1.readFails = disk.readFails ∧
      (flushTopics offsets disk errs).1.corrupt = disk.corrupt ∧
      (flushTopics offsets disk errs).1.encodeFails = disk.encodeFails ∧
      (flushTopics offsets disk errs).1.writeFails = disk.writeFails := by
  induction offsets with
  | nil => intro d e; exact ⟨rfl, rfl, rfl, rfl⟩
  | cons te rest ih =>
      intro d e
      obtain ⟨t0, offs⟩ := te
      simp only [flushTopics]
      by_cases h1 : filterSentinels offs = []
      · simp [h1]
      · rw [if_neg h1]
        by_cases h2 : d.writeFails t0
        · simp only [h2, if_true]
          exact ih _ _
        · simp only [h2, Bool.false_eq_true, if_false]
          exact ih _ _

theorem flushTopics_lookupA (offsets : TopicMap) :
    ∀ (disk : Disk) (errs : List WriteError) (t : String),
      (offsets.map Prod.fst).Nodup →
      (∀ e ∈ offsets, e.2 ≠ []) →
      (∀ e ∈ offsets, ∀ q ∈ e.2, isSentinel q.2 = false) →
      (∀ s, disk.writeFails s = false) →
      lookupA (flushTopics offsets disk errs).1.records t =
        match lookupA offsets t with
        | some m => some m
        | none => lookupA disk.records t := by
  induction offsets with
  | nil => intro d e t _ _ _ _; simp [flushTopics, lookupA]
  | cons te rest ih =>
      intro d e t hnd hne hsf hW
      obtain ⟨t0, offs⟩ := te
      have hfs : filterSentinels offs = offs :=
        filterSentinels_eq_self (hsf (t0, offs) (List.mem_cons_self _ _))
      have hne0 : offs ≠ [] := hne (t0, offs) (List.mem_cons_self _ _)
      simp only [flushTopics, hfs]
      rw [if_neg hne0, if_neg (by simp [hW t0])]
      simp only [List.map_cons, List.nodup_cons] at hnd
      have hrw := ih { d with records := setAssoc d.records t0 offs }
        (if d.encodeFails t0 = true then e ++ [WriteError.serializeFailed t0] else e) t hnd.2
        (fun x hx => hne x (List.mem_cons_of_mem _ hx))
        (fun x hx => hsf x (List.mem_cons_of_mem _ hx)) hW
      rw [hrw]
      by_cases ht : t0 = t
      · subst ht
        rw [lookupA_eq_none (by simpa using hnd.1)]
        simp [lookupA, lookupA_setAssoc_self]
      · cases hr : lookupA rest t with
        | some m => simp [lookupA, ht, hr]
        | none =>
            simp only [hr]
            rw [lookupA_setAssoc_ne _ _ _ _ (Ne.symm ht)]
            simp [lookupA, ht, hr]

theorem diskSentinelFree_flushTopics (offsets : TopicMap) :
    ∀ (disk : Disk) (errs : List WriteError), diskSentinelFree disk →
      diskSentinelFree (flushTopics offsets disk errs).1 := by
  induction offsets with
  | nil => intro d e h; simpa [flushTopics] using h
  | cons te rest ih =>
      intro d e h
      obtain ⟨t0, offs⟩ := te
      simp only [flushTopics]
      by_cases h1 : filterSentinels offs = []
      · simpa [h1] using h
      · rw [if_neg h1]
        by_cases h2 : d.writeFails t0
        · simp only [h2, if_true]
          exact ih _ _ h
        · simp only [h2, Bool.false_eq_true, if_false]
          apply ih
          intro t m hm q hq
          by_cases ht : t0 = t
          · subst ht
            rw [lookupA_setAssoc_self] at hm
            cases hm
            exact mem_filterSentinels hq
          · rw [lookupA_setAssoc_ne _ _ _ _ (Ne.symm ht)] at hm
            exact h t m hm q hq

theorem stepOp_store_eq (st : StoreState) (t : String) (p o : Int) (hq : st.queue = []) :
    stepOp st (Op.store t p o) =
      { st with
        offsets :=
          if isSentinel o then st.offsets
          else applyProgress st.offsets { topic := t, partition := p, offset := o },
        queue := [] } := by
  by_cases hs : isSentinel o
  · have hso : o = OffsetOldest ∨ o = OffsetNewest := (isSentinel_iff o).mp hs
    simp [stepOp, Store, hso, consumeAll, drainQueue, hq, hs]
  · have hso : ¬(o = OffsetOldest ∨ o = OffsetNewest) := by
      intro hc
      exact hs ((isSentinel_iff o).mpr hc)
    simp [stepOp, Store, hso, consumeAll, drainQueue, hq, hs]

theorem runOps_stores (calls : List (String × Int × Int)) :
    ∀ st : StoreState, st.queue = [] →
      runOps st (calls.map storeOp) =
        { st with offsets := runStoresMem st.offsets calls, queue := [] } := by
  induction calls with
  | nil =>
      intro st h
      simp only [List.map_nil, runOps, List.foldl_nil, runStoresMem]
      cases st
      simp_all
  | cons c rest ih =>
      intro st h
      simp only [List.map_cons, runOps, List.foldl_cons]
      have hstep := stepOp_store_eq st c.1 c.2.1 c.2.2 h
      simp only [storeOp]
      rw [hstep]
      have := ih { st with
        offsets :=
          if isSentinel c.2.2 then st.offsets
          else applyProgress st.offsets { topic := c.1, partition := c.2.1, offset := c.2.2 },
        queue := [] } rfl
      simp only [runOps] at this
      rw [this, runStoresMem_cons]

theorem diskSentinelFree_stepOp {st : StoreState} (h : diskSentinelFree st.disk) (op : Op) :
    diskSentinelFree (stepOp st op).disk := by
  cases op with
  | store t p o =>
      have hd : (stepOp st (Op.store t p o)).disk = st.disk := by
        simp only [stepOp, consumeAll, Store]
        split <;> rfl
      rw [hd]
      exact h
  | tick =>
      show diskSentinelFree (writeOffsetsToDisk st.offsets st.disk).1
      exact diskSentinelFree_flushTopics _ _ _ h

theorem diskSentinelFree_runOps (ops : List Op) :
    ∀ st : StoreState, diskSentinelFree st.disk → diskSentinelFree (runOps st ops).disk := by
  induction ops with
  | nil => intro st h; simpa [runOps] using h
  | cons op rest ih =>
      intro st h
      simp only [runOps, List.foldl_cons]
      exact ih _ (diskSentinelFree_stepOp h op)

theorem stopInvariant_pipeStep (env : PipeEnv) {st : PipeState}
    (h : stopInvariant st) (i : PipeInput) : stopInvariant (pipeStep env st i) := by
  unfold stopInvariant at *
  unfold pipeStep
  by_cases ht : st.terminated
  · simp [ht, h]
  · cases i with
    | cancel =>
        by_cases hc : st.cancelled
        · simp [ht, hc, h]
        · simp [ht, hc, h]
    | closed => simp [ht, h]
    | event e =>
        by_cases hc : st.cancelled
        · simp [ht, hc, h]
        · cases hp : process env.procEnv (env.tm e.topic) e env.search env.reversed with
          | ok output => simp [ht, hc, h, hp]
          | error err => simp [ht, hc, h, hp]

theorem stopInvariant_pipeRun (env : PipeEnv) (is : List PipeInput) :
    ∀ st : PipeState, stopInvariant st → stopInvariant (pipeRun env st is) := by
  induction is with
  | nil => intro st h; simpa [pipeRun] using h
  | cons i rest ih =>
      intro st h
      simp only [pipeRun, List.foldl_cons]
      exact ih _ (stopInvariant_pipeStep env h i)

/-- C1: the claim fails on the code.  With the in-memory offsets holding
topic "a" whose mapping becomes empty after filtering sentinels, followed
by topic "b" with a real offset, writeOffsetsToDisk writes nothing at all:
the Go code executes return (not continue) on the empty topic, so topic
"b" is never flushed even though its filtered mapping is nonempty, and no
error is reported either. -/
theorem c1_empty_topic_aborts_flush :
    lookupA (writeOffsetsToDisk [("a", [(0, OffsetNewest)]), ("b", [(0, 5)])] initDisk).1.records
        "b" = none ∧
    (writeOffsetsToDisk [("a", [(0, OffsetNewest)]), ("b", [(0, 5)])] initDisk).2 = [] ∧
    filterSentinels [((0 : Int), (5 : Int))] ≠ [] :=
  ⟨rfl, rfl, by decide⟩

/-- C3: starting from a fresh store, for every sequence of consumed Store
calls and ticker flushes, including sequences interleaving the two
sentinel offsets with real offsets, every record persisted on disk is free
of sentinel offsets. -/
theorem c3_no_sentinel_persisted (ops : List Op) (t : String) (m : PartitionMap)
    (h : lookupA (runOps initStore ops).disk.records t = some m) :
    ∀ q ∈ m, isSentinel q.2 = false := by
  have h0 : diskSentinelFree initStore.disk := by
    intro t' m' hm'
    simp [initStore, initDisk, lookupA] at hm'
  exact diskSentinelFree_runOps ops initStore h0 t m h

/-- C3 witness: a run storing offset 5 on partition 0, a sentinel on
partition 1, then flushing, persists exactly the sentinel-free record. -/
theorem c3_no_sentinel_persisted_witness :
    lookupA (runOps initStore [Op.store "t" 0 5, Op.store "t" 1 (-1), Op.tick]).disk.records "t"
        = some [(0, 5)] ∧
    ∀ q ∈ [((0 : Int), (5 : Int))], isSentinel q.2 = false :=
  ⟨by decide, c3_no_sentinel_persisted [Op.store "t" 0 5, Op.store "t" 1 (-1), Op.tick] "t"
    [(0, 5)] (by decide)⟩

/-- C4: the claim fails on the code.  After Query on a topic "a" with no
record (which seeds an empty cache entry, the normal startup path), a
Store of offset 5 for topic "b" enqueued before close is lost: the final
flush hits the empty topic "a" first and returns from writeOffsetsToDisk,
so "b" is never persisted and Query after close returns the empty map,
not the last stored offset 5.  The close mechanics themselves (drain,
final flush attempt, channels closed) are as claimed. -/
theorem c4_close_loses_enqueued_update :
    (Query (closeState (Store (Query initStore "a").2 "b" 0 5)) "b").1 = Except.ok [] ∧
    (closeState (Store (Query initStore "a").2 "b" 0 5)).inClosed = true ∧
    (closeState (Store (Query initStore "a").2 "b" 0 5)).errorsClosed = true ∧
    lastStoredOffset [("b", 0, 5)] "b" 0 = some 5 :=
  ⟨rfl, rfl, rfl, by decide⟩

/-- C5: after the cancellation signal is observed the pipeline loop never
again writes output or commits an offset but keeps consuming events until
the channel closes, at which point it terminates; repeated cancellation
deliveries are harmless and stopConsumer runs at most once. -/
theorem c5_drain_after_cancel (env : PipeEnv) :
    (∀ (st : PipeState) (e : PEvent), st.cancelled = true → st.terminated = false →
        pipeStep env st (PipeInput.event e) = st) ∧
    (∀ (st : PipeState) (i : PipeInput), st.cancelled = true →
        (pipeStep env st i).cancelled = true ∧
        (pipeStep env st i).outputs = st.outputs ∧
        (pipeStep env st i).commits = st.commits) ∧
    (∀ st : PipeState, (pipeStep env st PipeInput.closed).terminated = true) ∧
    (∀ st : PipeState,
        pipeStep env (pipeStep env st PipeInput.cancel) PipeInput.cancel =
          pipeStep env st PipeInput.cancel) ∧
    (∀ is : List PipeInput, (pipeRun env initPipe is).stopCalls ≤ 1) := by
  refine ⟨?_, ?_, ?_, ?_, ?_⟩
  · intro st e hc ht
    simp [pipeStep, hc, ht]
  · intro st i hc
    by_cases ht : st.terminated
    · simp [pipeStep, ht, hc]
    · cases i with
      | cancel => simp [pipeStep, ht, hc]
      | closed => simp [pipeStep, ht, hc]
      | event e => simp [pipeStep, ht, hc]
  · intro st
    by_cases ht : st.terminated
    · simp [pipeStep, ht]
    · simp [pipeStep, ht]
  · intro st
    by_cases ht : st.terminated
    · simp [pipeStep, ht]
    · by_cases hc : st.cancelled
      · simp [pipeStep, ht, hc]
      · simp [pipeStep, ht, hc]
  · intro is
    have h := stopInvariant_pipeRun env is initPipe rfl
    rw [stopInvariant] at h
    rw [h]
    split <;> simp

/-- C5 witness: a cancelled, non-terminated pipeline drains an event
unchanged, and a run with a repeated cancellation signal calls
stopConsumer at most once. -/
theorem c5_drain_after_cancel_witness :
    pipeStep envPlain stCancelled (PipeInput.event eventA) = stCancelled ∧
    (pipeRun envPlain initPipe
        [PipeInput.cancel, PipeInput.cancel, PipeInput.event eventA, PipeInput.closed]).stopCalls
      ≤ 1 :=
  ⟨(c5_drain_after_cancel envPlain).1 stCancelled eventA rfl rfl,
   (c5_drain_after_cancel envPlain).2.2.2.2 _⟩

/-- C6: when the three decoding stages succeed with output o, process has
reverse filter semantics: no pattern emits always; with a pattern and
reverse false the output is emitted exactly when the pattern matches;
with reverse true exactly when it does not match. -/
theorem c6_filter_reverse_semantics (env : ProcessEnv) (mt : String) (e : PEvent)
    (search : Option (String → Bool)) (reverse : Bool) (m1 m2 o : String)
    (hget : env.get mt = Except.ok m1)
    (hun : env.unmarshal m1 e.value = Except.ok m2)
    (hmar : env.marshal m2 e.timestamp = Except.ok o) :
    (search = none → process env mt e search reverse = Except.ok (some o)) ∧
    (∀ fM : String → Bool, search = some fM → reverse = false →
        process env mt e search reverse = Except.ok (if fM o then some o else none)) ∧
    (∀ fM : String → Bool, search = some fM → reverse = true →
        process env mt e search reverse = Except.ok (if fM o then none else some o)) := by
  unfold process
  simp only [hget, hun, hmar]
  refine ⟨?_, ?_, ?_⟩
  · intro hs
    rw [hs]
  · intro fM hs hr
    subst hs
    subst hr
    cases hf : fM o <;> simp [hf]
  · intro fM hs hr
    subst hs
    subst hr
    cases hf : fM o <;> simp [hf]

/-- C6 witness: the spec example; body "status=ok", a matching pattern,
reverse false emits, reverse true suppresses, and no pattern emits. -/
theorem c6_filter_reverse_semantics_witness :
    process procEnvC "M" eventC (some matchOK) false = Except.ok (some "status=ok") ∧
    process procEnvC "M" eventC (some matchOK) true = Except.ok none ∧
    process procEnvC "M" eventC none false = Except.ok (some "status=ok") :=
  ⟨(c6_filter_reverse_semantics procEnvC "M" eventC (some matchOK) false "" "status=ok"
      "status=ok" rfl rfl rfl).2.1 matchOK rfl rfl,
   (c6_filter_reverse_semantics procEnvC "M" eventC (some matchOK) true "" "status=ok"
      "status=ok" rfl rfl rfl).2.2 matchOK rfl rfl,
   (c6_filter_reverse_semantics procEnvC "M" eventC none false "" "status=ok"
      "status=ok" rfl rfl rfl).1 rfl⟩

/-- C7: in the running pipeline, an event dropped by the filter (process
returns ok with nil output) is still written and committed via
StoreOffset, while an event whose decode or marshal fails is skipped with
no commit and the failure is logged with the event's offset, partition and
topic; in both cases the loop is not terminated. -/
theorem c7_commit_semantics (env : PipeEnv) (st : PipeState) (e : PEvent)
    (ht : st.terminated = false) (hc : st.cancelled = false) :
    (process env.procEnv (env.tm e.topic) e env.search env.reversed = Except.ok none →
        pipeStep env st (PipeInput.event e) =
          { st with outputs := st.outputs ++ [(e.topic, none)],
                    commits := st.commits ++ [e] }) ∧
    (∀ err : String,
        process env.procEnv (env.tm e.topic) e env.search env.reversed = Except.error err →
        pipeStep env st (PipeInput.event e) =
          { st with logs := st.logs ++ [(e.offset, e.partition, e.topic)] }) := by
  constructor
  · intro hres
    simp [pipeStep, ht, hc, hres]
  · intro err hres
    simp [pipeStep, ht, hc, hres]

/-- C7 witness: a concrete event dropped by the filter is committed. -/
theorem c7_commit_semantics_witness :
    initPipe.terminated = false ∧
    pipeStep envDropAll initPipe (PipeInput.event eventA) =
      { initPipe with outputs := initPipe.outputs ++ [(eventA.topic, none)],
                      commits := initPipe.commits ++ [eventA] } :=
  ⟨rfl, (c7_commit_semantics envDropAll initPipe eventA rfl rfl).1 rfl⟩

/-- C8: the constructed Checkpoint has at most one of explicit offset and
explicit timestamp set; when both flags are supplied the explicit offset
wins and the timestamp is not applied; with neither, the fresh checkpoint
is returned.  The construction is a total function. -/
theorem c8_checkpoint_at_most_one (rewind : Bool) (tc : TimeFlag) (oc : Int64Flag) :
    ((getCheckpoint rewind tc oc).explicitOffset = none ∨
      (getCheckpoint rewind tc oc).explicitTimestamp = none) ∧
    (oc.flagSet = true →
        (getCheckpoint rewind tc oc).explicitOffset = some oc.value ∧
        (getCheckpoint rewind tc oc).explicitTimestamp = none) ∧
    (oc.flagSet = false → tc.flagSet = true →
        (getCheckpoint rewind tc oc).explicitTimestamp = some tc.value ∧
        (getCheckpoint rewind tc oc).explicitOffset = none) ∧
    (oc.flagSet = false → tc.flagSet = false →
        getCheckpoint rewind tc oc = NewCheckpoint rewind) := by
  unfold getCheckpoint NewCheckpoint Checkpoint.SetOffset Checkpoint.SetTimeOffset
  by_cases ho : oc.flagSet
  · simp [ho]
  · by_cases htc : tc.flagSet
    · simp [ho, htc]
    · simp [ho, htc]

/-- C8 witness: with both an explicit offset 42 and an explicit timestamp
9 supplied, the offset wins and the timestamp is not applied. -/
theorem c8_checkpoint_at_most_one_witness :
    (getCheckpoint false { flagSet := true, value := 9 }
        { flagSet := true, value := 42 }).explicitOffset = some 42 ∧
    (getCheckpoint false { flagSet := true, value := 9 }
        { flagSet := true, value := 42 }).explicitTimestamp = none :=
  (c8_checkpoint_at_most_one false { flagSet := true, value := 9 }
    { flagSet := true, value := 42 }).2.1 rfl

/-- C9: Query on a topic whose record does not exist returns the empty
mapping with no error and seeds the cache with an empty entry for that
topic; a read failure other than not-exist, and a deserialization
failure, are each returned synchronously as errors. -/
theorem c9_query_missing_record (st : StoreState) (t : String) :
    (st.disk.read t = ReadResult.notExist →
        (Query st t).1 = Except.ok [] ∧
        (Query st t).2.offsets = setAssoc st.offsets t []) ∧
    (st.disk.read t = ReadResult.readErr →
        (Query st t).1 = Except.error (QueryError.readFailed t) ∧ (Query st t).2 = st) ∧
    (st.disk.read t = ReadResult.corruptData →
        (Query st t).1 = Except.error (QueryError.deserializeFailed t) ∧ (Query st t).2 = st) := by
  refine ⟨?_, ?_, ?_⟩ <;> intro h <;> simp [Query, h]

/-- C9 witness: on a fresh store the record for topic "x" does not exist,
and Query returns the empty map and seeds the cache. -/
theorem c9_query_missing_record_witness :
    initStore.disk.read "x" = ReadResult.notExist ∧
    (Query initStore "x").1 = Except.ok [] ∧
    (Query initStore "x").2.offsets = setAssoc initStore.offsets "x" [] :=
  ⟨rfl, ((c9_query_missing_record initStore "x").1 rfl).1,
    ((c9_query_missing_record initStore "x").1 rfl).2⟩

/-- C10: close on a nil store pointer, or on a store whose db field is
nil, returns immediately with nothing changed: no channel is closed, no
drain or flush happens. -/
theorem c10_close_nil_noop :
    closeGuarded none = none ∧
    (∀ obj : StoreObj, obj.dbNil = true → closeGuarded (some obj) = some obj) := by
  refine ⟨rfl, ?_⟩
  intro obj h
  simp [closeGuarded, h]

/-- C10 witness: close on a store object with a nil db is the identity. -/
theorem c10_close_nil_noop_witness :
    closeGuarded (some { dbNil := true, state := initStore }) =
      some { dbNil := true, state := initStore } :=
  c10_close_nil_noop.2 { dbNil := true, state := initStore } rfl

/-- C2: starting from a fresh store, for every sequence of Store calls
consumed by the store's loop, followed by a flush, Query returns for any
partition that received at least one non-sentinel store exactly the last
non-sentinel offset stored for it (last-write-wins in issue order). -/
theorem c2_last_write_wins (calls : List (String × Int × Int)) (t : String) (p : Int) (o0 : Int)
    (h : lastStoredOffset calls t p = some o0) :
    ∃ m : PartitionMap,
      (Query (runOps initStore (calls.map storeOp ++ [Op.tick])) t).1 = Except.ok m ∧
      lookupA m p = some o0 := by
  have hgood0 : goodOffsets initStore.offsets := by
    refine ⟨?_, ?_, ?_⟩ <;> simp [initStore]
  have hrun : runOps initStore (calls.map storeOp ++ [Op.tick]) =
      stepOp (runOps initStore (calls.map storeOp)) Op.tick := by
    simp [runOps, List.foldl_append]
  rw [hrun, runOps_stores calls initStore rfl]
  have hgood : goodOffsets (runStoresMem initStore.offsets calls) :=
    goodOffsets_runStoresMem calls _ hgood0
  have hmem : memGet (runStoresMem initStore.offsets calls) t p = some o0 := by
    rw [memGet_runStoresMem, h]
  cases hm1 : lookupA (runStoresMem initStore.offsets calls) t with
  | none =>
      unfold memGet at hmem
      rw [hm1] at hmem
      cases hmem
  | some m =>
      have hm2 : lookupA m p = some o0 := by
        unfold memGet at hmem
        rw [hm1] at hmem
        exact hmem
      refine ⟨m, ?_, hm2⟩
      have hrecords :
          lookupA (flushTopics (runStoresMem initStore.offsets calls) initStore.disk []).1.records
            t = some m := by
        rw [flushTopics_lookupA _ _ _ t hgood.1 hgood.2.1 hgood.2.2 (fun s => rfl), hm1]
      have hRF := (flushTopics_readFails (runStoresMem initStore.offsets calls)
        initStore.disk []).1
      have hCor := (flushTopics_readFails (runStoresMem initStore.offsets calls)
        initStore.disk []).2.1
      have hread :
          ((flushTopics (runStoresMem initStore.offsets calls) initStore.disk []).1).read t =
            ReadResult.value m := by
        unfold Disk.read
        rw [congrFun hRF t, congrFun hCor t, hrecords]
        simp [initStore, initDisk]
      show (Query
        (stepOp { initStore with offsets := runStoresMem initStore.offsets calls, queue := [] }
          Op.tick) t).1 = Except.ok m
      simp only [stepOp, writeOffsetsToDisk, Query]
      rw [hread]

/-- C2 witness: two stores on the same partition; after a flush, Query
returns the later offset 7. -/
theorem c2_last_write_wins_witness :
    lastStoredOffset [("t", 0, 5), ("t", 0, 7)] "t" 0 = some 7 ∧
    ∃ m : PartitionMap,
      (Query (runOps initStore ([("t", 0, 5), ("t", 0, 7)].map storeOp ++ [Op.tick])) "t").1 =
        Except.ok m ∧
      lookupA m 0 = some 7 :=
  ⟨by decide, c2_last_write_wins [("t", 0, 5), ("t", 0, 7)] "t" 0 7 (by decide)⟩

end Trubka
